import Mathlib

/-!
Shallow embedding of the `rhai-http` module (`src/lib.rs`): a small HTTP
request helper exposed to the rhai scripting engine.  The embedding models

* the script-level value universe (`Dyn`) in the shapes the interface of
  the module recognises (unit, booleans, integers, strings, arrays, maps,
  plus raw float lexemes produced by the JSON decoder);
* deserialisation of the `Parameters` struct from a script map, mirroring
  the serde derive on `Parameters` (`method`/`url` required strings,
  `headers` an array defaulting to `[]`, `body` any value defaulting to
  unit, `output` the enum \x7btext, json\x7d defaulting to text);
* method resolution (`reqwest::Method::from_str`, i.e. `http::Method`
  semantics: the standard methods plus arbitrary extension tokens);
* the header codec of `request` (split at the first colon, trim both
  sides, validate name and value against the HTTP grammars used by
  `http::HeaderName` / `http::HeaderValue`, names lower-cased);
* collection of parsed headers into a `reqwest::header::HeaderMap`
  (`FromIterator` uses insert semantics: a repeated name replaces the
  previously collected value);
* the transport boundary as an oracle (`Client.send`), with the request
  function additionally returning the list of transport invocations and the
  final client state so that absence of network activity and absence of
  client mutation are statable;
* response decoding: `text` returns the body string, `json` runs the
  serde_json deserialisation of the body into a `rhai::Map` (a string-keyed
  B-tree map), i.e. a full JSON parse that only accepts a top-level object.

Numeric JSON literals with a fraction or exponent (and integer literals
outside the signed 64-bit range) are kept as their source lexeme
(`Dyn.floatRaw`); no claim depends on float arithmetic.  Error message
positions (serde_json appends "at line L column C") are elided; message
stems follow the underlying libraries.
-/

/-- Script-level values, mirroring `rhai::Dynamic` in the shapes the module
interface recognises. -/
inductive Dyn where
  | unit
  | bool (b : Bool)
  | int (i : Int)
  | floatRaw (s : String)
  | str (s : String)
  | array (xs : List Dyn)
  | map (m : List (String × Dyn))
deriving Repr

/-- Numeric range test on `Nat`, as a `Bool`. -/
def between (lo hi n : Nat) : Bool := Nat.ble lo n && Nat.ble n hi

/-- ASCII whitespace recognised by trimming (space, tab, newline, carriage
return); models `str::trim` for the ASCII range. -/
def isWsChar (c : Char) : Bool := c = ' ' || c = '\t' || c = '\n' || c = '\r'

/-- Trim leading and trailing whitespace from a character list. -/
def trimChars (l : List Char) : List Char :=
  ((l.dropWhile isWsChar).reverse.dropWhile isWsChar).reverse

/-- Trim a string, modelling `str::trim`. -/
def trimStr (s : String) : String := String.mk (trimChars s.data)

/-- Split a character list at the first occurrence of `sep`, models
`str::split_once`. -/
def splitOnceAux (sep : Char) : List Char → Option (List Char × List Char)
  | [] => none
  | c :: rest =>
    if c = sep then some ([], rest)
    else
      match splitOnceAux sep rest with
      | none => none
      | some (a, b) => some (c :: a, b)

/-- Split a string at the first occurrence of `sep` into the part before and
the part after, models `str::split_once`. -/
def splitOnce (sep : Char) (s : String) : Option (String × String) :=
  match splitOnceAux sep s.data with
  | none => none
  | some (a, b) => some (String.mk a, String.mk b)

/-- HTTP token symbol bytes (the non-alphanumeric characters admitted by the
`http` crate in method tokens and header names):
exclamation, hash, dollar, percent, ampersand, apostrophe, asterisk, plus,
minus, dot, caret, underscore, backtick, pipe, tilde. -/
def isTokenSymbol (n : Nat) : Bool :=
  [33, 35, 36, 37, 38, 39, 42, 43, 45, 46, 94, 95, 96, 124, 126].contains n

/-- Characters admitted in an HTTP method token by
`http::Method::from_bytes` (digits, letters, token symbols). -/
def isMethodTokenChar (c : Char) : Bool :=
  between 48 57 c.toNat || between 65 90 c.toNat || between 97 122 c.toNat ||
    isTokenSymbol c.toNat

/-- The standard methods recognised by `http::Method::from_bytes` by exact
byte match. -/
def standardMethods : List String :=
  ["OPTIONS", "GET", "POST", "PUT", "DELETE", "HEAD", "TRACE", "CONNECT", "PATCH"]

/-- Models `reqwest::Method::from_str` (line 97 of `src/lib.rs`): the empty
string is rejected, a standard method matches exactly, and any other string
is accepted as an extension method when every character is a valid token
character.  The error display of `http::method::InvalidMethod` is
"invalid HTTP method". -/
def methodFromStr (s : String) : Except String String :=
  if s.data = [] then .error "invalid HTTP method"
  else if standardMethods.contains s then .ok s
  else if s.data.all isMethodTokenChar then .ok s
  else .error "invalid HTTP method"

/-- Maps a header-name character the way `http::HeaderName` parsing does:
uppercase letters are lower-cased, other valid token characters are kept,
anything else is rejected. -/
def headerNameMapChar (c : Char) : Option Char :=
  if between 65 90 c.toNat then some (Char.ofNat (c.toNat + 32))
  else if between 97 122 c.toNat || between 48 57 c.toNat || isTokenSymbol c.toNat then
    some c
  else none

/-- Maps a whole header name, rejecting the empty name and any invalid
character. -/
def headerNameMap : List Char → Option (List Char)
  | [] => some []
  | c :: rest =>
    match headerNameMapChar c with
    | none => none
    | some c2 =>
      match headerNameMap rest with
      | none => none
      | some rest2 => some (c2 :: rest2)

/-- Models `reqwest::header::HeaderName::from_str`: valid names are
non-empty and consist of token characters; uppercase letters are
lower-cased.  The error display of `InvalidHeaderName` is
"invalid HTTP header name". -/
def parseHeaderName (s : String) : Except String String :=
  match s.data with
  | [] => .error "invalid HTTP header name"
  | l =>
    match headerNameMap l with
    | none => .error "invalid HTTP header name"
    | some l2 => .ok (String.mk l2)

/-- A byte admitted in a header value by `http::HeaderValue` (tab, or any
byte that is at least 32 and not 127). -/
def isHeaderValueChar (c : Char) : Bool :=
  c.toNat == 9 || (Nat.ble 32 c.toNat && !(c.toNat == 127))

/-- Models `reqwest::header::HeaderValue::from_str`.  The error display of
`InvalidHeaderValue` is "failed to parse header value". -/
def parseHeaderValue (s : String) : Except String String :=
  if s.data.all isHeaderValueChar then .ok s
  else .error "failed to parse header value"

/-- The header codec of `request` (lines 106 to 123 of `src/lib.rs`): split
the stringified entry at the first colon; with no colon the entry fails with
the quoted-text message; otherwise both sides are trimmed and validated as
header name and header value. -/
def parseHeader (s : String) : Except String (String × String) :=
  match splitOnce ':' s with
  | none => .error ("'" ++ s ++ "' is not a valid header")
  | some (n, v) =>
    match parseHeaderName (trimStr n) with
    | .error e => .error e
    | .ok name =>
      match parseHeaderValue (trimStr v) with
      | .error e => .error e
      | .ok value => .ok (name, value)

/-- Replace the value of an entry when its key is `k`, used by the header
map insert. -/
def replaceKey (k v : String) (p : String × String) : String × String :=
  if p.1 = k then (k, v) else p

/-- Insert into the association-list model of `reqwest::header::HeaderMap`:
when the name is already present its value is replaced in place (the
semantics of `HeaderMap::insert`), otherwise the pair is appended. -/
def headerInsert (m : List (String × String)) (k v : String) : List (String × String) :=
  if m.any (fun p => p.1 = k) then m.map (replaceKey k v)
  else m ++ [(k, v)]

/-- Collect parsed headers left to right, modelling
`collect::<Result<reqwest::header::HeaderMap, _>>()` on the success path:
the `FromIterator` instance of `HeaderMap` inserts each pair in turn, so a
repeated name keeps only the value of its last occurrence. -/
def headerCollect : List (String × String) → List (String × String) → List (String × String)
  | [], acc => acc
  | (k, v) :: rest, acc => headerCollect rest (headerInsert acc k v)

/-- Output format of the response, mirroring the `Output` enum of
`src/lib.rs` (serde snake_case tokens "text" and "json", default text). -/
inductive Output where
  | Text
  | Json
deriving Repr, DecidableEq

/-- The validated parameter record, mirroring the `Parameters` struct of
`src/lib.rs` lines 11 to 21. -/
structure Parameters where
  method : String
  url : String
  headers : List Dyn
  body : Dyn
  output : Output
deriving Repr

/-- Accumulator for field-by-field deserialisation of `Parameters`. -/
structure ParamsAcc where
  method : Option String
  url : Option String
  headers : Option (List Dyn)
  body : Option Dyn
  output : Option Output

/-- Models deserialisation of the `Output` enum by `rhai::serde`
(`deserialize_enum`): a string value is matched against the variant tokens
"text" and "json"; an externally tagged single-entry map whose key names a
variant is accepted as well, its value being deserialised as the unit
variant content; any other value is a type error.  Unknown variant names
fail before the content is examined, as in serde.  The type-error texts
are schematic stems (the library wraps them in its own displays). -/
def parseOutputDyn (v : Dyn) : Except String Output :=
  match v with
  | .str s =>
    if s = "text" then .ok .Text
    else if s = "json" then .ok .Json
    else .error ("unknown variant `" ++ s ++ "`, expected `text` or `json`")
  | .map [(ks, vv)] =>
    if ks = "text" then
      match vv with
      | .unit => .ok .Text
      | _ => .error "invalid type for variant content of `output`: expected unit"
    else if ks = "json" then
      match vv with
      | .unit => .ok .Json
      | _ => .error "invalid type for variant content of `output`: expected unit"
    else .error ("unknown variant `" ++ ks ++ "`, expected `text` or `json`")
  | _ => .error "invalid type for field `output`: expected a string or a map"

/-- Processes one map entry of the input the way the serde derive on
`Parameters` does: `method` and `url` must be strings, `headers` must be an
array, `body` accepts anything, `output` is deserialised as the `Output`
enum (literal token or externally tagged single-entry map, see
`parseOutputDyn`), and unrecognised keys are skipped. -/
def applyField (acc : ParamsAcc) (k : String) (v : Dyn) : Except String ParamsAcc :=
  if k = "method" then
    match v with
    | .str s => .ok { acc with method := some s }
    | _ => .error "invalid type for field `method`: expected a string"
  else if k = "url" then
    match v with
    | .str s => .ok { acc with url := some s }
    | _ => .error "invalid type for field `url`: expected a string"
  else if k = "headers" then
    match v with
    | .array xs => .ok { acc with headers := some xs }
    | _ => .error "invalid type for field `headers`: expected an array"
  else if k = "body" then .ok { acc with body := some v }
  else if k = "output" then
    match parseOutputDyn v with
    | .ok o => .ok { acc with output := some o }
    | .error e => .error e
  else .ok acc

/-- Folds the entries of the input map through `applyField`, stopping at the
first failing entry. -/
def foldParams : List (String × Dyn) → ParamsAcc → Except String ParamsAcc
  | [], acc => .ok acc
  | (k, v) :: rest, acc =>
    match applyField acc k v with
    | .error e => .error e
    | .ok acc2 => foldParams rest acc2

/-- Models `rhai::serde::from_dynamic::<Parameters>` (line 95 of
`src/lib.rs`): every entry is deserialised in turn; afterwards the required
fields `method` and `url` are checked in declaration order and the optional
fields receive their serde defaults (`headers` empty, `body` unit, `output`
text).  A real `rhai::Map` has unique sorted keys; the model accepts any
entry list. -/
def parseParameters (m : List (String × Dyn)) : Except String Parameters :=
  match foldParams m ⟨none, none, none, none, none⟩ with
  | .error e => .error e
  | .ok acc =>
    match acc.method with
    | none => .error "missing field `method`"
    | some method =>
      match acc.url with
      | none => .error "missing field `url`"
      | some url =>
        .ok ⟨method, url, acc.headers.getD [], acc.body.getD .unit, acc.output.getD .Text⟩

example : methodFromStr "GET" = .ok "GET" := rfl
example : methodFromStr "FOO" = .ok "FOO" := rfl
example : methodFromStr "" = .error "invalid HTTP method" := rfl
example : methodFromStr "a b" = .error "invalid HTTP method" := rfl
example : parseHeader "X-Test: 1" = .ok ("x-test", "1") := rfl
example : parseHeader "X-Test" = .error "'X-Test' is not a valid header" := rfl
example : headerCollect [("x", "1"), ("x", "2")] [] = [("x", "2")] := rfl
example : parseParameters [("url", .str "u")] = .error "missing field `method`" := rfl

mutual

/-- Rhai display of a value (`Dynamic::to_string`): unit shows as the empty
string, booleans and integers in the usual notation, strings verbatim;
arrays and maps use the rhai debug notation (string escaping inside the
debug notation is elided, no claim depends on it). -/
def dynToString : Dyn → String
  | .unit => ""
  | .bool b => if b then "true" else "false"
  | .int i => toString i
  | .floatRaw s => s
  | .str s => s
  | .array xs => "[" ++ dynListDebug xs ++ "]"
  | .map m => "#\x7b" ++ dynMapDebug m ++ "\x7d"

/-- Rhai debug display of a value, used for elements inside arrays and
maps (strings are quoted there). -/
def dynDebug : Dyn → String
  | .unit => "()"
  | .bool b => if b then "true" else "false"
  | .int i => toString i
  | .floatRaw s => s
  | .str s => "\"" ++ s ++ "\""
  | .array xs => "[" ++ dynListDebug xs ++ "]"
  | .map m => "#\x7b" ++ dynMapDebug m ++ "\x7d"

/-- Comma-separated debug display of array elements. -/
def dynListDebug : List Dyn → String
  | [] => ""
  | [d] => dynDebug d
  | d :: rest => dynDebug d ++ ", " ++ dynListDebug rest

/-- Comma-separated debug display of map entries. -/
def dynMapDebug : List (String × Dyn) → String
  | [] => ""
  | [(k, v)] => "\"" ++ k ++ "\": " ++ dynDebug v
  | (k, v) :: rest => "\"" ++ k ++ "\": " ++ dynDebug v ++ ", " ++ dynMapDebug rest

end

/-- JSON values as parsed by serde_json (numeric literals with a fraction
or exponent, or outside the signed 64-bit range, keep their lexeme). -/
inductive Json where
  | null
  | bool (b : Bool)
  | int (n : Int)
  | floatRaw (s : String)
  | str (s : String)
  | arr (xs : List Json)
  | obj (kvs : List (String × Json))
deriving Repr

/-- Skip JSON whitespace (the serde_json set: space, tab, newline, carriage
return). -/
def skipWs : List Char → List Char
  | [] => []
  | c :: rest => if isWsChar c then skipWs rest else c :: rest

/-- Value of a hexadecimal digit. -/
def hexVal (c : Char) : Option Nat :=
  if between 48 57 c.toNat then some (c.toNat - 48)
  else if between 97 102 c.toNat then some (c.toNat - 87)
  else if between 65 70 c.toNat then some (c.toNat - 55)
  else none

/-- Parse exactly four hexadecimal digits. -/
def parseHex4 : List Char → Option (Nat × List Char)
  | a :: b :: c :: d :: rest =>
    match hexVal a, hexVal b, hexVal c, hexVal d with
    | some x, some y, some z, some w => some (((x * 16 + y) * 16 + z) * 16 + w, rest)
    | _, _, _, _ => none
  | _ => none

/-- Body of a JSON string after the opening quote, following the serde_json
escape rules (simple escapes, hex escapes with surrogate pairing, raw
control characters rejected). -/
def parseStringBody : Nat → List Char → List Char → Except String (String × List Char)
  | 0, _, _ => .error "recursion limit exceeded"
  | _ + 1, [], _ => .error "EOF while parsing a string"
  | fuel + 1, c :: rest, acc =>
    if c = '\"' then .ok (String.mk acc.reverse, rest)
    else if c = '\\' then
      match rest with
      | [] => .error "EOF while parsing a string"
      | e :: rest2 =>
        if e = '\"' then parseStringBody fuel rest2 ('\"' :: acc)
        else if e = '\\' then parseStringBody fuel rest2 ('\\' :: acc)
        else if e = '/' then parseStringBody fuel rest2 ('/' :: acc)
        else if e = 'b' then parseStringBody fuel rest2 ('\x08' :: acc)
        else if e = 'f' then parseStringBody fuel rest2 ('\x0c' :: acc)
        else if e = 'n' then parseStringBody fuel rest2 ('\n' :: acc)
        else if e = 'r' then parseStringBody fuel rest2 ('\r' :: acc)
        else if e = 't' then parseStringBody fuel rest2 ('\t' :: acc)
        else if e = 'u' then
          match parseHex4 rest2 with
          | none => .error "invalid escape"
          | some (cu, rest3) =>
            if between 56320 57343 cu then .error "lone leading surrogate in hex escape"
            else if between 55296 56319 cu then
              match rest3 with
              | '\\' :: 'u' :: rest4 =>
                match parseHex4 rest4 with
                | none => .error "invalid escape"
                | some (lo, rest5) =>
                  if between 56320 57343 lo then
                    parseStringBody fuel rest5
                      (Char.ofNat (65536 + (cu - 55296) * 1024 + (lo - 56320)) :: acc)
                  else .error "lone leading surrogate in hex escape"
              | _ => .error "unexpected end of hex escape"
            else parseStringBody fuel rest3 (Char.ofNat cu :: acc)
        else .error "invalid escape"
    else if c.toNat < 32 then
      .error "control character (\\u0000-\\u001F) found while parsing a string"
    else parseStringBody fuel rest (c :: acc)

/-- Longest prefix of decimal digits and the remainder. -/
def spanDigits : List Char → (List Char × List Char)
  | [] => ([], [])
  | c :: rest =>
    if between 48 57 c.toNat then
      match spanDigits rest with
      | (ds, r) => (c :: ds, r)
    else ([], c :: rest)

/-- Numeric value of a list of decimal digits. -/
def digitsToNat (l : List Char) : Nat :=
  l.foldl (fun n c => n * 10 + (c.toNat - 48)) 0

/-- Optional fraction part of a JSON number (dot followed by at least one
digit). -/
def parseFrac (cs : List Char) : Except String (List Char × List Char) :=
  match cs with
  | '.' :: r =>
    match spanDigits r with
    | ([], []) => .error "EOF while parsing a value"
    | ([], _) => .error "invalid number"
    | (ds, r2) => .ok ('.' :: ds, r2)
  | _ => .ok ([], cs)

/-- Optional exponent part of a JSON number (e or E, optional sign, at
least one digit). -/
def parseExp (cs : List Char) : Except String (List Char × List Char) :=
  match cs with
  | [] => .ok ([], [])
  | c :: r =>
    if c = 'e' || c = 'E' then
      match r with
      | [] => .error "EOF while parsing a value"
      | s :: r2 =>
        if s = '+' || s = '-' then
          match spanDigits r2 with
          | ([], []) => .error "EOF while parsing a value"
          | ([], _) => .error "invalid number"
          | (ds, r3) => .ok (c :: s :: ds, r3)
        else
          match spanDigits r with
          | ([], _) => .error "invalid number"
          | (ds, r3) => .ok (c :: ds, r3)
    else .ok ([], cs)

/-- Finish a JSON number whose sign and integer digits are known: an
integer literal inside the signed 64-bit range becomes an integer (this is
the range rhai stores); any literal with a fraction or exponent, and
integer literals outside that range, keep their lexeme. -/
def parseNumberFinish (sgn intDigits : List Char) (cs : List Char) :
    Except String ((Int ⊕ String) × List Char) :=
  match parseFrac cs with
  | .error e => .error e
  | .ok (fr, cs2) =>
    match parseExp cs2 with
    | .error e => .error e
    | .ok (ex, cs3) =>
      if fr = [] && ex = [] then
        let n : Int := Int.ofNat (digitsToNat intDigits)
        let v : Int := if sgn = ([] : List Char) then n else -n
        if -(2 ^ 63) ≤ v ∧ v ≤ 2 ^ 63 - 1 then .ok (.inl v, cs3)
        else .ok (.inr (String.mk (sgn ++ intDigits)), cs3)
      else .ok (.inr (String.mk (sgn ++ intDigits ++ fr ++ ex)), cs3)

/-- A JSON number (serde_json grammar: optional minus, no leading zeros,
optional fraction and exponent). -/
def parseNumber (cs : List Char) : Except String ((Int ⊕ String) × List Char) :=
  let p : List Char × List Char :=
    match cs with
    | c :: r => if c = '-' then (['-'], r) else ([], cs)
    | [] => ([], [])
  match p.2 with
  | [] => .error "EOF while parsing a value"
  | c :: rest =>
    if c = '0' then
      match rest with
      | d :: _ =>
        if between 48 57 d.toNat then .error "invalid number"
        else parseNumberFinish p.1 ['0'] rest
      | [] => parseNumberFinish p.1 ['0'] []
    else if between 49 57 c.toNat then
      match spanDigits rest with
      | (ds, r) => parseNumberFinish p.1 (c :: ds) r
    else .error "invalid number"

mutual

/-- Recursive-descent JSON parser mirroring serde_json.  The fuel argument
only bounds recursion depth; callers supply one unit per input character
plus slack, which is always sufficient, and all theorems use one fixed fuel
expression so that sufficiency is never needed. -/
def parseValueCore : Nat → List Char → Except String (Json × List Char)
  | 0, _ => .error "recursion limit exceeded"
  | fuel + 1, cs =>
    match skipWs cs with
    | [] => .error "EOF while parsing a value"
    | c :: rest =>
      if c = '\x7b' then
        match parseObjEntries fuel rest true with
        | .error e => .error e
        | .ok (kvs, r) => .ok (.obj kvs, r)
      else if c = '[' then
        match parseArrElems fuel rest true with
        | .error e => .error e
        | .ok (xs, r) => .ok (.arr xs, r)
      else if c = '\"' then
        match parseStringBody (rest.length + 1) rest [] with
        | .error e => .error e
        | .ok (s, r) => .ok (.str s, r)
      else if c = 'n' then
        match rest with
        | 'u' :: 'l' :: 'l' :: r => .ok (.null, r)
        | _ => .error "expected ident"
      else if c = 't' then
        match rest with
        | 'r' :: 'u' :: 'e' :: r => .ok (.bool true, r)
        | _ => .error "expected ident"
      else if c = 'f' then
        match rest with
        | 'a' :: 'l' :: 's' :: 'e' :: r => .ok (.bool false, r)
        | _ => .error "expected ident"
      else if c = '-' || between 48 57 c.toNat then
        match parseNumber (c :: rest) with
        | .error e => .error e
        | .ok (.inl n, r) => .ok (.int n, r)
        | .ok (.inr s, r) => .ok (.floatRaw s, r)
      else .error "expected value"

/-- Object entries after the opening brace (or after a comma when
`isFirst` is false), mirroring the serde_json map loop including the
trailing-comma and key-must-be-a-string errors. -/
def parseObjEntries : Nat → List Char → Bool → Except String (List (String × Json) × List Char)
  | 0, _, _ => .error "recursion limit exceeded"
  | fuel + 1, cs, isFirst =>
    match skipWs cs with
    | [] => .error "EOF while parsing an object"
    | c :: rest =>
      if c = '\x7d' then
        if isFirst then .ok ([], rest) else .error "trailing comma"
      else if c = '\"' then
        match parseStringBody (rest.length + 1) rest [] with
        | .error e => .error e
        | .ok (key, r2) =>
          match skipWs r2 with
          | [] => .error "EOF while parsing an object"
          | c3 :: r3 =>
            if c3 = ':' then
              match parseValueCore fuel r3 with
              | .error e => .error e
              | .ok (v, r4) =>
                match skipWs r4 with
                | [] => .error "EOF while parsing an object"
                | c5 :: r5 =>
                  if c5 = ',' then
                    match parseObjEntries fuel r5 false with
                    | .error e => .error e
                    | .ok (kvs, r6) => .ok ((key, v) :: kvs, r6)
                  else if c5 = '\x7d' then .ok ([(key, v)], r5)
                  else .error "expected `,` or `\x7d`"
            else .error "expected `:`"
      else .error "key must be a string"

/-- Array elements after the opening bracket (or after a comma when
`isFirst` is false). -/
def parseArrElems : Nat → List Char → Bool → Except String (List Json × List Char)
  | 0, _, _ => .error "recursion limit exceeded"
  | fuel + 1, cs, isFirst =>
    match skipWs cs with
    | [] => .error "EOF while parsing a list"
    | c :: rest =>
      if c = ']' then
        if isFirst then .ok ([], rest) else .error "trailing comma"
      else
        match parseValueCore fuel (c :: rest) with
        | .error e => .error e
        | .ok (v, r2) =>
          match skipWs r2 with
          | [] => .error "EOF while parsing a list"
          | c3 :: r3 =>
            if c3 = ',' then
              match parseArrElems fuel r3 false with
              | .error e => .error e
              | .ok (xs, r4) => .ok (v :: xs, r4)
            else if c3 = ']' then .ok ([v], r3)
            else .error "expected `,` or `]`"

end

/-- Fuel used for a whole parse of `s`: one unit per character plus slack. -/
def jsonFuel (s : String) : Nat := s.data.length + 2

/-- Full JSON parse of a string, including the trailing-characters check of
serde_json; this is the definition of a well-formed JSON body. -/
def jsonParse (s : String) : Except String Json :=
  match parseValueCore (jsonFuel s) s.data with
  | .error e => .error e
  | .ok (j, r) =>
    if (skipWs r).isEmpty then .ok j else .error "trailing characters"

/-- Insert into a sorted string-keyed association list, replacing an
existing binding: this is the model of `BTreeMap::insert`, the container
behind `rhai::Map`. -/
def btreeInsert (k : String) (v : Dyn) : List (String × Dyn) → List (String × Dyn)
  | [] => [(k, v)]
  | (k2, v2) :: rest =>
    if k < k2 then (k, v) :: (k2, v2) :: rest
    else if k = k2 then (k, v) :: rest
    else (k2, v2) :: btreeInsert k v rest

mutual

/-- Conversion of a parsed JSON value into a rhai value, mirroring the
`Deserialize` instance of `rhai::Dynamic` driven by serde_json: null maps
to unit, objects collect into a B-tree map (later duplicate keys replace
earlier ones). -/
def Json.toDyn : Json → Dyn
  | .null => .unit
  | .bool b => .bool b
  | .int n => .int n
  | .floatRaw s => .floatRaw s
  | .str s => .str s
  | .arr xs => .array (Json.toDynList xs)
  | .obj kvs => .map (Json.toDynObj kvs [])

/-- Element-wise conversion of a JSON array. -/
def Json.toDynList : List Json → List Dyn
  | [] => []
  | x :: rest => Json.toDyn x :: Json.toDynList rest

/-- Left-to-right collection of JSON object entries into the B-tree map
model. -/
def Json.toDynObj : List (String × Json) → List (String × Dyn) → List (String × Dyn)
  | [], acc => acc
  | (k, v) :: rest, acc => Json.toDynObj rest (btreeInsert k (Json.toDyn v) acc)

end

/-- Description of an unexpected value in a serde invalid-type error
(`serde::de::Unexpected` display; the floating point case shows the lexeme
rather than the reformatted float, and string escaping is elided). -/
def unexpectedDesc : Json → String
  | .null => "unit value"
  | .bool b => if b then "boolean `true`" else "boolean `false`"
  | .int n => "integer `" ++ toString n ++ "`"
  | .floatRaw s => "floating point `" ++ s ++ "`"
  | .str s => "string \"" ++ s ++ "\""
  | .arr _ => "sequence"
  | .obj _ => "map"

/-- Models `response.json::<rhai::Map>()` (line 132 of `src/lib.rs`), that
is serde_json deserialisation of the body into a string-keyed map: after
whitespace, a body starting with an opening brace is parsed as an object
(with the trailing-characters check of a top-level deserialisation); a
body starting with an opening bracket is rejected as a sequence without
parsing its elements; any other body is parsed as a value only to name it
in the invalid-type error.  Well-formed non-object bodies therefore always
fail. -/
def jsonDecodeMap (s : String) : Except String (List (String × Dyn)) :=
  match skipWs s.data with
  | [] => .error "EOF while parsing a value"
  | c :: _ =>
    if c = '\x7b' then
      match parseValueCore (jsonFuel s) s.data with
      | .error e => .error e
      | .ok (Json.obj kvs, r) =>
        if (skipWs r).isEmpty then .ok (Json.toDynObj kvs [])
        else .error "trailing characters"
      | .ok _ => .error "invalid type: value, expected a map"
    else if c = '[' then .error "invalid type: sequence, expected a map"
    else
      match parseValueCore (jsonFuel s) s.data with
      | .error e => .error e
      | .ok (j, _) => .error ("invalid type: " ++ unexpectedDesc j ++ ", expected a map")

/-- Decoding of a response body per requested output (lines 130 to 133 of
`src/lib.rs`): text returns the body as a string; json deserialises the
body into a map, a failure being wrapped in the decode-error display of
the transport library. -/
def decodeBody : Output → String → Except String Dyn
  | .Text, b => .ok (.str b)
  | .Json, b =>
    match jsonDecodeMap b with
    | .error e => .error ("error decoding response body: " ++ e)
    | .ok m => .ok (.map m)

/-- The outgoing HTTP request assembled by `request`: resolved method, the
url string as supplied, the collected header map, and the stringified
body. -/
structure HttpRequest where
  method : String
  url : String
  headers : List (String × String)
  body : String
deriving Repr, DecidableEq

/-- A raw transport response: status code and body. -/
structure Response where
  status : Nat
  body : String
deriving Repr, DecidableEq

/-- The transport handle (`reqwest::blocking::Client`), modelled as an
oracle mapping an outgoing request to a response or a transport error
display (url parse failure, connection failure and so on). -/
structure Client where
  send : HttpRequest → Except String Response

/-- Parse each header entry in turn after stringifying it, stopping at the
first failure: models the iterator inside `.headers(...)` in lines 102 to
125 of `src/lib.rs`. -/
def headersMapM : List Dyn → Except String (List (String × String))
  | [] => .ok []
  | d :: rest =>
    match parseHeader (dynToString d) with
    | .error e => .error e
    | .ok p =>
      match headersMapM rest with
      | .error e => .error e
      | .ok ps => .ok (p :: ps)

/-- The `request` function of `src/lib.rs` lines 85 to 135.  The result is
the returned value or error, together with the list of transport
invocations (empty when the pipeline fails before `send`) and the final
client state (the source receives the client by mutable reference but only
calls `Client::request` on it, which takes a shared reference, so the
state is threaded through unchanged). -/
def request (client : Client) (parameters : List (String × Dyn)) :
    Except String Dyn × List HttpRequest × Client :=
  match parseParameters parameters with
  | .error e => (.error e, [], client)
  | .ok p =>
    match methodFromStr p.method with
    | .error e => (.error e, [], client)
    | .ok m =>
      match headersMapM p.headers with
      | .error e => (.error e, [], client)
      | .ok hs =>
        let req : HttpRequest := ⟨m, p.url, headerCollect hs [], dynToString p.body⟩
        match client.send req with
        | .error e => (.error e, [req], client)
        | .ok resp => (decodeBody p.output resp.body, [req], client)

/-- A concrete client whose transport always answers status 200 with body
"hello"; used to instantiate claims at concrete inputs. -/
def okClient : Client := ⟨fun _ => .ok ⟨200, "hello"⟩⟩

example : jsonParse "\x7b\"a\":1\x7d" = .ok (.obj [("a", .int 1)]) := rfl
example : jsonParse "[1, true]" = .ok (.arr [.int 1, .bool true]) := rfl
example : jsonParse "\x7ba:\x7d" = .error "key must be a string" := rfl
example : jsonParse " -12e3 " = .ok (.floatRaw "-12e3") := rfl
example : jsonParse "\"a\\u00e9\"" = .ok (.str "aé") := rfl
example : jsonDecodeMap "\x7b\"a\":1\x7d" = .ok [("a", .int 1)] := rfl
example : jsonDecodeMap "[1]" = .error "invalid type: sequence, expected a map" := rfl
example : jsonDecodeMap "1" = .error "invalid type: integer `1`, expected a map" := rfl
example :
    request okClient [("method", .str "GET"), ("url", .str "http://example.com")] =
      (.ok (.str "hello"), [⟨"GET", "http://example.com", [], ""⟩], okClient) := rfl
example :
    request okClient
        [("headers", .array [.str "X-Test: 1", .str "X-Test: 2"]),
         ("method", .str "GET"), ("url", .str "u")] =
      (.ok (.str "hello"), [⟨"GET", "u", [("x-test", "2")], ""⟩], okClient) := rfl

/-- True when no entry of the map has key `k`. -/
def keyAbsent (k : String) (m : List (String × Dyn)) : Bool :=
  m.all (fun kv => kv.1 != k)

/-- First value bound to `k` in an association list. -/
def findVal (k : String) : List (String × String) → Option String
  | [] => none
  | (k2, v) :: rest => if k2 = k then some v else findVal k rest

/-- Last value bound to `k` in an association list. -/
def lastVal (k : String) : List (String × String) → Option String
  | [] => none
  | (k2, v) :: rest =>
    match lastVal k rest with
    | some w => some w
    | none => if k2 = k then some v else none

/-- Number of entries bound to `k` in an association list. -/
def countKey (k : String) : List (String × String) → Nat
  | [] => 0
  | (k2, _) :: rest => (if k2 = k then 1 else 0) + countKey k rest

lemma keyAbsent_forall {k : String} {m : List (String × Dyn)}
    (h : keyAbsent k m = true) : ∀ kv ∈ m, kv.1 ≠ k := by
  intro kv hkv
  have := List.all_eq_true.mp h kv hkv
  simpa [bne_iff_ne] using this

lemma request_validation_error (c : Client) (m : List (String × Dyn)) (e : String)
    (h : parseParameters m = .error e) : request c m = (.error e, [], c) := by
  simp [request, h]

lemma applyField_method_eq {a a2 : ParamsAcc} {k : String} {v : Dyn}
    (hk : k ≠ "method") (h : applyField a k v = .ok a2) : a2.method = a.method := by
  unfold applyField at h
  repeat' split at h
  all_goals first
    | exact Except.noConfusion h
    | (injection h with h2; subst h2; rfl)
    | exact absurd (by assumption) hk

lemma applyField_url_eq {a a2 : ParamsAcc} {k : String} {v : Dyn}
    (hk : k ≠ "url") (h : applyField a k v = .ok a2) : a2.url = a.url := by
  unfold applyField at h
  repeat' split at h
  all_goals first
    | exact Except.noConfusion h
    | (injection h with h2; subst h2; rfl)
    | exact absurd (by assumption) hk

lemma applyField_output_eq {a a2 : ParamsAcc} {k : String} {v : Dyn}
    (hk : k ≠ "output") (h : applyField a k v = .ok a2) : a2.output = a.output := by
  unfold applyField at h
  repeat' split at h
  all_goals first
    | exact Except.noConfusion h
    | (injection h with h2; subst h2; rfl)
    | exact absurd (by assumption) hk

lemma foldParams_method_eq {m : List (String × Dyn)} {acc acc2 : ParamsAcc}
    (hm : ∀ kv ∈ m, kv.1 ≠ "method") (h : foldParams m acc = .ok acc2) :
    acc2.method = acc.method := by
  induction m generalizing acc with
  | nil =>
    simp only [foldParams] at h
    injection h with h2
    rw [h2]
  | cons kv rest ih =>
    obtain ⟨k1, v1⟩ := kv
    simp only [foldParams] at h
    split at h
    · cases h
    · rename_i a2 ha
      have h1 := applyField_method_eq (hm (k1, v1) (by simp)) ha
      have h2 := ih (fun x hx => hm x (List.mem_cons_of_mem _ hx)) h
      rw [h2, h1]

lemma foldParams_url_eq {m : List (String × Dyn)} {acc acc2 : ParamsAcc}
    (hm : ∀ kv ∈ m, kv.1 ≠ "url") (h : foldParams m acc = .ok acc2) :
    acc2.url = acc.url := by
  induction m generalizing acc with
  | nil =>
    simp only [foldParams] at h
    injection h with h2
    rw [h2]
  | cons kv rest ih =>
    obtain ⟨k1, v1⟩ := kv
    simp only [foldParams] at h
    split at h
    · cases h
    · rename_i a2 ha
      have h1 := applyField_url_eq (hm (k1, v1) (by simp)) ha
      have h2 := ih (fun x hx => hm x (List.mem_cons_of_mem _ hx)) h
      rw [h2, h1]

lemma foldParams_output_eq {m : List (String × Dyn)} {acc acc2 : ParamsAcc}
    (hm : ∀ kv ∈ m, kv.1 ≠ "output") (h : foldParams m acc = .ok acc2) :
    acc2.output = acc.output := by
  induction m generalizing acc with
  | nil =>
    simp only [foldParams] at h
    injection h with h2
    rw [h2]
  | cons kv rest ih =>
    obtain ⟨k1, v1⟩ := kv
    simp only [foldParams] at h
    split at h
    · cases h
    · rename_i a2 ha
      have h1 := applyField_output_eq (hm (k1, v1) (by simp)) ha
      have h2 := ih (fun x hx => hm x (List.mem_cons_of_mem _ hx)) h
      rw [h2, h1]

lemma foldParams_entry_error {m : List (String × Dyn)} {k : String} {v : Dyn}
    (hmem : (k, v) ∈ m) (hbad : ∀ a : ParamsAcc, ∃ e, applyField a k v = .error e) :
    ∀ acc, ∃ e, foldParams m acc = .error e := by
  induction m with
  | nil => cases hmem
  | cons kv rest ih =>
    intro acc
    obtain ⟨k1, v1⟩ := kv
    rcases List.mem_cons.mp hmem with heq | htl
    · injection heq with e1 e2
      subst e1; subst e2
      rcases hbad acc with ⟨e, he⟩
      exact ⟨e, by simp only [foldParams]; rw [he]⟩
    · rcases h : applyField acc k1 v1 with e | a2
      · exact ⟨e, by simp only [foldParams]; rw [h]⟩
      · rcases ih htl a2 with ⟨e, he⟩
        exact ⟨e, by simp only [foldParams]; rw [h]; exact he⟩

lemma splitOnceAux_eq_none {sep : Char} {l : List Char}
    (h : ∀ c ∈ l, c ≠ sep) : splitOnceAux sep l = none := by
  induction l with
  | nil => rfl
  | cons c rest ih =>
    have hc : c ≠ sep := h c (by simp)
    simp only [splitOnceAux, if_neg hc]
    rw [ih (fun x hx => h x (List.mem_cons_of_mem _ hx))]

/-- Claim C1 (counterexample): a map with a valid url but no `method` field
does not validate with a default method of GET; it fails with a
missing-field error before any network call. -/
theorem method_required_counterexample :
    request okClient [("url", Dyn.str "http://example.com")] =
      (.error "missing field `method`", [], okClient) := rfl

/-- Claim C1 (amended): the `method` field is mandatory; for every input
map without a `method` key the call fails with a validation error and no
request is sent. -/
theorem method_required (c : Client) (m : List (String × Dyn))
    (h : keyAbsent "method" m = true) :
    ∃ e, parseParameters m = .error e ∧ request c m = (.error e, [], c) := by
  have hall := keyAbsent_forall h
  rcases hf : foldParams m ⟨none, none, none, none, none⟩ with e | acc
  · refine ⟨e, ?_, ?_⟩
    · simp [parseParameters, hf]
    · exact request_validation_error c m e (by simp [parseParameters, hf])
  · have hm : acc.method = none := by simpa using foldParams_method_eq hall hf
    refine ⟨"missing field `method`", ?_, ?_⟩
    · simp [parseParameters, hf, hm]
    · exact request_validation_error c m _ (by simp [parseParameters, hf, hm])

/-- Witness for C1 (amended) at a concrete input. -/
theorem method_required_witness :
    ∃ e, parseParameters [("url", Dyn.str "u")] = .error e ∧
      request okClient [("url", Dyn.str "u")] = (.error e, [], okClient) :=
  method_required okClient [("url", Dyn.str "u")] rfl

/-- Claim C5 (confirmed): for every input map whose `url` field is missing
or not a string, the call fails with a validation error and the transport
is never invoked (the request log is empty). -/
theorem url_validation (c : Client) (m : List (String × Dyn))
    (h : keyAbsent "url" m = true ∨ ∃ v, ("url", v) ∈ m ∧ ∀ s, v ≠ Dyn.str s) :
    ∃ e, parseParameters m = .error e ∧ request c m = (.error e, [], c) := by
  rcases h with h | ⟨v, hmem, hnostr⟩
  · have hall := keyAbsent_forall h
    rcases hf : foldParams m ⟨none, none, none, none, none⟩ with e | acc
    · exact ⟨e, by simp [parseParameters, hf],
        request_validation_error c m e (by simp [parseParameters, hf])⟩
    · have hu : acc.url = none := by simpa using foldParams_url_eq hall hf
      rcases hm : acc.method with _ | mth
      · exact ⟨"missing field `method`", by simp [parseParameters, hf, hm],
          request_validation_error c m _ (by simp [parseParameters, hf, hm])⟩
      · exact ⟨"missing field `url`", by simp [parseParameters, hf, hm, hu],
          request_validation_error c m _ (by simp [parseParameters, hf, hm, hu])⟩
  · have hbad : ∀ a : ParamsAcc, ∃ e, applyField a "url" v = .error e := by
      intro a
      cases v with
      | str s => exact absurd rfl (hnostr s)
      | unit => exact ⟨_, rfl⟩
      | bool b => exact ⟨_, rfl⟩
      | int i => exact ⟨_, rfl⟩
      | floatRaw s => exact ⟨_, rfl⟩
      | array xs => exact ⟨_, rfl⟩
      | map mm => exact ⟨_, rfl⟩
    rcases foldParams_entry_error hmem hbad ⟨none, none, none, none, none⟩ with ⟨e, he⟩
    exact ⟨e, by simp [parseParameters, he],
      request_validation_error c m e (by simp [parseParameters, he])⟩

/-- Witness for C5 at a concrete input (url missing). -/
theorem url_validation_witness :
    ∃ e, parseParameters [("method", Dyn.str "GET")] = .error e ∧
      request okClient [("method", Dyn.str "GET")] = (.error e, [], okClient) :=
  url_validation okClient [("method", Dyn.str "GET")] (Or.inl rfl)

/-- Claim C6 (counterexample): the `output` field does not accept exactly
the literal tokens "text" and "json": the externally tagged single-entry
map form also validates (here as the text format) and the request is
sent. -/
theorem output_enum_map_counterexample :
    request okClient [("method", Dyn.str "GET"), ("output", Dyn.map [("text", Dyn.unit)]),
        ("url", Dyn.str "u")] =
      (.ok (.str "hello"), [⟨"GET", "u", [], ""⟩], okClient) := rfl

/-- Claim C6 (amended): the `output` field accepts the literal string
tokens "text" and "json" and additionally the externally tagged enum form,
a single-entry map whose key is "text" or "json" and whose value is unit;
every other value fails validation before any request is sent, and when
`output` is absent the format defaults to text. -/
theorem output_field_spec :
    (∀ (a : ParamsAcc) (v : Dyn) (r : ParamsAcc), applyField a "output" v = .ok r →
        ∃ o, parseOutputDyn v = .ok o ∧ r.output = some o)
    ∧ (∀ (v : Dyn) (o : Output), parseOutputDyn v = .ok o →
        (v = Dyn.str "text" ∧ o = Output.Text) ∨
        (v = Dyn.str "json" ∧ o = Output.Json) ∨
        (v = Dyn.map [("text", Dyn.unit)] ∧ o = Output.Text) ∨
        (v = Dyn.map [("json", Dyn.unit)] ∧ o = Output.Json))
    ∧ (∀ (m : List (String × Dyn)) (p : Parameters), keyAbsent "output" m = true →
        parseParameters m = .ok p → p.output = Output.Text)
    ∧ (∀ (c : Client) (m : List (String × Dyn)) (v : Dyn) (e2 : String),
        ("output", v) ∈ m → parseOutputDyn v = .error e2 →
        ∃ e, request c m = (.error e, [], c)) := by
  refine ⟨?_, ?_, ?_, ?_⟩
  · intro a v r h
    have key : applyField a "output" v =
        (match parseOutputDyn v with
         | .ok o => .ok { a with output := some o }
         | .error e => .error e) := rfl
    rw [key] at h
    rcases hpo : parseOutputDyn v with e | o
    · simp only [hpo] at h
      exact Except.noConfusion h
    · simp only [hpo] at h
      injection h with h2
      exact ⟨o, rfl, by rw [← h2]⟩
  · intro v o h
    cases v with
    | str s =>
      simp only [parseOutputDyn] at h
      by_cases ht : s = "text"
      · subst ht
        rw [if_pos rfl] at h
        injection h with h3
        exact Or.inl ⟨rfl, h3.symm⟩
      · by_cases hj : s = "json"
        · subst hj
          rw [if_neg ht, if_pos rfl] at h
          injection h with h3
          exact Or.inr (Or.inl ⟨rfl, h3.symm⟩)
        · rw [if_neg ht, if_neg hj] at h
          exact Except.noConfusion h
    | map mm =>
      cases mm with
      | nil => exact Except.noConfusion h
      | cons kv rest =>
        cases rest with
        | cons kv2 rest2 => exact Except.noConfusion h
        | nil =>
          obtain ⟨ks, vv⟩ := kv
          simp only [parseOutputDyn] at h
          by_cases hks : ks = "text"
          · subst hks
            rw [if_pos rfl] at h
            cases vv with
            | unit =>
              injection h with h3
              exact Or.inr (Or.inr (Or.inl ⟨rfl, h3.symm⟩))
            | bool b => exact Except.noConfusion h
            | int i => exact Except.noConfusion h
            | floatRaw s2 => exact Except.noConfusion h
            | str s2 => exact Except.noConfusion h
            | array xs => exact Except.noConfusion h
            | map mm2 => exact Except.noConfusion h
          · by_cases hkj : ks = "json"
            · subst hkj
              rw [if_neg hks, if_pos rfl] at h
              cases vv with
              | unit =>
                injection h with h3
                exact Or.inr (Or.inr (Or.inr ⟨rfl, h3.symm⟩))
              | bool b => exact Except.noConfusion h
              | int i => exact Except.noConfusion h
              | floatRaw s2 => exact Except.noConfusion h
              | str s2 => exact Except.noConfusion h
              | array xs => exact Except.noConfusion h
              | map mm2 => exact Except.noConfusion h
            · rw [if_neg hks, if_neg hkj] at h
              exact Except.noConfusion h
    | unit => exact Except.noConfusion h
    | bool b => exact Except.noConfusion h
    | int i => exact Except.noConfusion h
    | floatRaw s2 => exact Except.noConfusion h
    | array xs => exact Except.noConfusion h
  · intro m p habs hok
    have hall := keyAbsent_forall habs
    rcases hf : foldParams m ⟨none, none, none, none, none⟩ with e | acc
    · simp [parseParameters, hf] at hok
    · have ho : acc.output = none := by simpa using foldParams_output_eq hall hf
      simp only [parseParameters, hf] at hok
      rcases hm : acc.method with _ | mth
      · rw [hm] at hok; exact Except.noConfusion hok
      · rw [hm] at hok
        rcases hu : acc.url with _ | u
        · rw [hu] at hok; exact Except.noConfusion hok
        · rw [hu] at hok
          injection hok with h3
          rw [← h3, ho]
          rfl
  · intro c m v e2 hmem hbad2
    have hbad : ∀ a : ParamsAcc, ∃ e, applyField a "output" v = .error e := by
      intro a
      have key : applyField a "output" v =
          (match parseOutputDyn v with
           | .ok o => .ok { a with output := some o }
           | .error e => .error e) := rfl
      refine ⟨e2, ?_⟩
      rw [key]
      simp [hbad2]
    rcases foldParams_entry_error hmem hbad ⟨none, none, none, none, none⟩ with ⟨e, he⟩
    exact ⟨e, request_validation_error c m e (by simp [parseParameters, he])⟩

/-- Witness for C6 (amended) at a concrete input: an unknown output token
fails validation with no request sent. -/
theorem output_field_spec_witness :
    ∃ e, request okClient
        [("method", Dyn.str "GET"), ("output", Dyn.str "xml"), ("url", Dyn.str "u")] =
      (.error e, [], okClient) :=
  output_field_spec.2.2.2 okClient
    [("method", Dyn.str "GET"), ("output", Dyn.str "xml"), ("url", Dyn.str "u")]
    (Dyn.str "xml") "unknown variant `xml`, expected `text` or `json`"
    (List.mem_cons_of_mem _ (List.mem_cons_self _ _)) rfl

/-- Claim C7 (counterexample): for a header entry without a colon the error
message wraps the original text in single quotes, so it differs from the
unquoted message the claim states. -/
theorem header_no_colon_counterexample :
    request okClient [("headers", Dyn.array [Dyn.str "X-Test"]), ("method", Dyn.str "GET"),
        ("url", Dyn.str "u")] =
      (.error "'X-Test' is not a valid header", [], okClient) ∧
    "'X-Test' is not a valid header" ≠ "X-Test is not a valid header" :=
  ⟨rfl, by decide⟩

/-- Claim C7 (amended): for every header entry string without a colon the
codec fails with the message quoting the offending original string in
single quotes, and no network call occurs. -/
theorem header_no_colon (c : Client) (u s : String)
    (h : s.data.all (fun ch => ch != ':') = true) :
    parseHeader s = .error ("'" ++ s ++ "' is not a valid header") ∧
    request c [("headers", Dyn.array [Dyn.str s]), ("method", Dyn.str "GET"),
        ("url", Dyn.str u)] =
      (.error ("'" ++ s ++ "' is not a valid header"), [], c) := by
  have hnone : splitOnceAux ':' s.data = none := by
    refine splitOnceAux_eq_none ?_
    intro ch hch
    have := List.all_eq_true.mp h ch hch
    simpa [bne_iff_ne] using this
  have hph : parseHeader s = .error ("'" ++ s ++ "' is not a valid header") := by
    simp [parseHeader, splitOnce, hnone]
  refine ⟨hph, ?_⟩
  have hp : parseParameters
      [("headers", Dyn.array [Dyn.str s]), ("method", Dyn.str "GET"), ("url", Dyn.str u)] =
      .ok ⟨"GET", u, [Dyn.str s], Dyn.unit, Output.Text⟩ := rfl
  have hms : methodFromStr "GET" = .ok "GET" := rfl
  have hm : headersMapM [Dyn.str s] = .error ("'" ++ s ++ "' is not a valid header") := by
    simp [headersMapM, dynToString, hph]
  simp [request, hp, hms, hm]

/-- Witness for C7 (amended) at a concrete input. -/
theorem header_no_colon_witness :
    parseHeader "X-Head" = .error "'X-Head' is not a valid header" ∧
    request okClient [("headers", Dyn.array [Dyn.str "X-Head"]), ("method", Dyn.str "GET"),
        ("url", Dyn.str "v")] =
      (.error "'X-Head' is not a valid header", [], okClient) :=
  header_no_colon okClient "v" "X-Head" rfl

/-- Claim C8 (counterexample): a mapping-shaped `headers` field does not
validate; only the sequence shape is accepted. -/
theorem headers_mapping_counterexample :
    request okClient [("headers", Dyn.map [("X-Test", Dyn.str "1")]), ("method", Dyn.str "GET"),
        ("url", Dyn.str "u")] =
      (.error "invalid type for field `headers`: expected an array", [], okClient) := rfl

/-- Claim C8 (amended): the `headers` field accepts only an ordered
sequence; a mapping fails validation; each sequence element is stringified
and passed to the header codec, and the first failing entry short-circuits
(later entries are not examined). -/
theorem headers_shape_spec :
    (∀ (a : ParamsAcc) (kvs : List (String × Dyn)),
        applyField a "headers" (Dyn.map kvs) =
          .error "invalid type for field `headers`: expected an array")
    ∧ (∀ (a : ParamsAcc) (xs : List Dyn),
        applyField a "headers" (Dyn.array xs) = .ok { a with headers := some xs })
    ∧ (∀ (pre post : List Dyn) (d : Dyn) (e : String),
        (∀ x ∈ pre, (parseHeader (dynToString x)).isOk = true) →
        parseHeader (dynToString d) = .error e →
        headersMapM (pre ++ d :: post) = .error e) := by
  refine ⟨fun a kvs => rfl, fun a xs => rfl, ?_⟩
  intro pre post d e hok hbad
  induction pre with
  | nil => simp [headersMapM, hbad]
  | cons x rest ih =>
    have hx := hok x (by simp)
    rcases hpx : parseHeader (dynToString x) with e2 | p
    · rw [hpx] at hx; simp [Except.isOk, Except.toBool] at hx
    · have h2 := ih (fun y hy => hok y (List.mem_cons_of_mem _ hy))
      show headersMapM (x :: (rest ++ d :: post)) = Except.error e
      revert h2
      generalize (rest ++ d :: post : List Dyn) = tl
      intro h2
      rw [show headersMapM (x :: tl) =
          (match parseHeader (dynToString x) with
           | Except.error e2 => Except.error e2
           | Except.ok p2 =>
             match headersMapM tl with
             | Except.error e2 => Except.error e2
             | Except.ok ps => Except.ok (p2 :: ps)) from rfl, hpx, h2]

/-- Witness for C8 (amended) at a concrete input: the second entry fails
and short-circuits. -/
theorem headers_shape_witness :
    headersMapM [Dyn.str "A: 1", Dyn.str "nope", Dyn.str "B: 2"] =
      .error "'nope' is not a valid header" :=
  headers_shape_spec.2.2 [Dyn.str "A: 1"] [Dyn.str "B: 2"] (Dyn.str "nope") _
    (by decide) rfl

/-- Claim C2 (counterexample): two validated header entries with the same
name are not both attached; only the last one reaches the outgoing
request. -/
theorem duplicate_headers_counterexample :
    request okClient [("headers", Dyn.array [Dyn.str "X-Test: 1", Dyn.str "X-Test: 2"]),
        ("method", Dyn.str "GET"), ("url", Dyn.str "u")] =
      (.ok (.str "hello"), [⟨"GET", "u", [("x-test", "2")], ""⟩], okClient) ∧
    ([("x-test", "2")] : List (String × String)) ≠ [("x-test", "1"), ("x-test", "2")] :=
  ⟨rfl, by decide⟩

lemma replaceKey_mk (k v k2 v2 : String) :
    replaceKey k v (k2, v2) = if k2 = k then (k, v) else (k2, v2) := rfl

lemma findVal_map_replace {k1 k : String} (v1 : String) (acc : List (String × String))
    (hne : k1 ≠ k) :
    findVal k (acc.map (replaceKey k1 v1)) = findVal k acc := by
  induction acc with
  | nil => rfl
  | cons p rest ih =>
    obtain ⟨k2, v2⟩ := p
    simp only [List.map_cons, replaceKey_mk]
    by_cases h2 : k2 = k1
    · subst h2
      rw [if_pos rfl]
      simp only [findVal, ih]
      rw [if_neg hne, if_neg hne]
    · rw [if_neg h2]
      simp only [findVal, ih]

lemma findVal_map_replace_eq {k1 : String} (v1 : String) (acc : List (String × String))
    (hany : acc.any (fun p => p.1 = k1) = true) :
    findVal k1 (acc.map (replaceKey k1 v1)) = some v1 := by
  induction acc with
  | nil => cases hany
  | cons p rest ih =>
    obtain ⟨k2, v2⟩ := p
    simp only [List.map_cons, replaceKey_mk]
    by_cases h2 : k2 = k1
    · subst h2
      rw [if_pos rfl]
      simp [findVal]
    · rw [if_neg h2]
      have hrest : rest.any (fun p => p.1 = k1) = true := by
        simpa [List.any_cons, h2] using hany
      simp only [findVal, ih hrest]
      rw [if_neg h2]

lemma findVal_append_single (k : String) (acc : List (String × String))
    (x : String × String) :
    findVal k (acc ++ [x]) =
      match findVal k acc with
      | some w => some w
      | none => if x.1 = k then some x.2 else none := by
  obtain ⟨xk, xv⟩ := x
  induction acc with
  | nil => simp [findVal]
  | cons p rest ih =>
    obtain ⟨k2, v2⟩ := p
    by_cases h2 : k2 = k
    · simp [findVal, h2]
    · simp [findVal, h2, ih]

lemma findVal_none_of_not_any (k : String) (acc : List (String × String))
    (h : acc.any (fun p => p.1 = k) = false) : findVal k acc = none := by
  induction acc with
  | nil => rfl
  | cons p rest ih =>
    obtain ⟨k2, v2⟩ := p
    simp only [List.any_cons, Bool.or_eq_false_iff, decide_eq_false_iff_not] at h
    simp [findVal, h.1, ih h.2]

lemma headerInsert_findVal (acc : List (String × String)) (k1 v1 k : String) :
    findVal k (headerInsert acc k1 v1) = if k1 = k then some v1 else findVal k acc := by
  unfold headerInsert
  by_cases hany : acc.any (fun p => p.1 = k1) = true
  · rw [if_pos hany]
    by_cases hk : k1 = k
    · subst hk
      rw [if_pos rfl, findVal_map_replace_eq v1 acc hany]
    · rw [if_neg hk, findVal_map_replace v1 acc hk]
  · rw [if_neg hany, findVal_append_single]
    by_cases hk : k1 = k
    · subst hk
      have h0 : findVal k1 acc = none :=
        findVal_none_of_not_any _ _ (Bool.eq_false_iff.mpr hany)
      simp [h0]
    · rcases hf : findVal k acc with _ | w
      · simp [hf, hk]
      · simp [hf, hk]

lemma countKey_map_replace (k1 v1 k : String) (acc : List (String × String)) :
    countKey k (acc.map (replaceKey k1 v1)) = countKey k acc := by
  induction acc with
  | nil => rfl
  | cons p rest ih =>
    obtain ⟨k2, v2⟩ := p
    simp only [List.map_cons, replaceKey_mk]
    by_cases h2 : k2 = k1
    · subst h2
      rw [if_pos rfl]
      simp only [countKey, ih]
    · rw [if_neg h2]
      simp only [countKey, ih]

lemma countKey_append (k : String) (acc : List (String × String)) (x : String × String) :
    countKey k (acc ++ [x]) = countKey k acc + (if x.1 = k then 1 else 0) := by
  obtain ⟨xk, xv⟩ := x
  induction acc with
  | nil => simp [countKey]
  | cons p rest ih =>
    obtain ⟨k2, v2⟩ := p
    simp [countKey, ih, Nat.add_assoc]

lemma countKey_zero_of_not_any (k : String) (acc : List (String × String))
    (h : acc.any (fun p => p.1 = k) = false) : countKey k acc = 0 := by
  induction acc with
  | nil => rfl
  | cons p rest ih =>
    obtain ⟨k2, v2⟩ := p
    simp only [List.any_cons, Bool.or_eq_false_iff, decide_eq_false_iff_not] at h
    simp [countKey, h.1, ih h.2]

lemma headerInsert_count (acc : List (String × String)) (k1 v1 k : String)
    (h : countKey k acc ≤ 1) : countKey k (headerInsert acc k1 v1) ≤ 1 := by
  unfold headerInsert
  by_cases hany : acc.any (fun p => p.1 = k1) = true
  · rw [if_pos hany, countKey_map_replace]
    exact h
  · rw [if_neg hany, countKey_append]
    by_cases hk : k1 = k
    · subst hk
      have h0 : countKey k1 acc = 0 :=
        countKey_zero_of_not_any _ _ (Bool.eq_false_iff.mpr hany)
      simp [h0]
    · simpa [hk] using h

lemma headerCollect_count : ∀ (l acc : List (String × String)),
    (∀ k2, countKey k2 acc ≤ 1) → ∀ k, countKey k (headerCollect l acc) ≤ 1 := by
  intro l
  induction l with
  | nil => intro acc h k; exact h k
  | cons p rest ih =>
    intro acc h k
    obtain ⟨k1, v1⟩ := p
    exact ih (headerInsert acc k1 v1) (fun k2 => headerInsert_count _ _ _ _ (h k2)) k

lemma headerCollect_findVal : ∀ (l acc : List (String × String)) (k : String),
    findVal k (headerCollect l acc) =
      match lastVal k l with
      | some w => some w
      | none => findVal k acc := by
  intro l
  induction l with
  | nil => intro acc k; rfl
  | cons p rest ih =>
    intro acc k
    obtain ⟨k1, v1⟩ := p
    rw [show headerCollect ((k1, v1) :: rest) acc =
        headerCollect rest (headerInsert acc k1 v1) from rfl]
    rw [ih]
    rcases hl : lastVal k rest with _ | w
    · rw [headerInsert_findVal]
      simp only [lastVal, hl]
      by_cases hk : k1 = k
      · simp [hk]
      · simp [hk]
    · simp only [lastVal, hl]

/-- Claim C2 (amended): when several validated entries share a header name,
collecting into the transport header map keeps only the value of the last
occurrence (insert semantics), and each name is bound at most once in the
collected map. -/
theorem headerCollect_last_value (l : List (String × String)) (k : String) :
    findVal k (headerCollect l []) = lastVal k l ∧ countKey k (headerCollect l []) ≤ 1 := by
  constructor
  · rw [headerCollect_findVal]
    rcases hl : lastVal k l with _ | w
    · rfl
    · rfl
  · exact headerCollect_count l [] (fun k2 => by simp [countKey]) k

/-- Claim C4 (counterexample): the unrecognized method token FOO is not
rejected by the executor; the request is sent with method FOO. -/
theorem unknown_method_counterexample :
    request okClient [("method", Dyn.str "FOO"), ("url", Dyn.str "u")] =
      (.ok (.str "hello"), [⟨"FOO", "u", [], ""⟩], okClient) := rfl

/-- Claim C4 (amended): method resolution accepts every non-empty string
of HTTP token characters (standard or extension methods alike, kept
verbatim) and rejects exactly the others, with the invalid-method message;
a rejected method fails before any network call. -/
theorem method_token_spec :
    (∀ s : String, (methodFromStr s).isOk = true ↔
        (s.data ≠ [] ∧ s.data.all isMethodTokenChar = true))
    ∧ (∀ s : String, methodFromStr s = .ok s ∨
        methodFromStr s = .error "invalid HTTP method")
    ∧ (∀ (c : Client) (m : List (String × Dyn)) (p : Parameters),
        parseParameters m = .ok p → (methodFromStr p.method).isOk = false →
        request c m = (.error "invalid HTTP method", [], c)) := by
  refine ⟨?_, ?_, ?_⟩
  · intro s
    constructor
    · intro h
      by_cases he : s.data = []
      · rw [methodFromStr, if_pos he] at h
        simp [Except.isOk, Except.toBool] at h
      · by_cases hs : standardMethods.contains s
        · have hmem : s ∈ standardMethods := by simpa using hs
          fin_cases hmem <;> exact ⟨by decide, by decide⟩
        · by_cases ha : s.data.all isMethodTokenChar
          · exact ⟨he, ha⟩
          · rw [methodFromStr, if_neg he, if_neg hs, if_neg ha] at h
            simp [Except.isOk, Except.toBool] at h
    · rintro ⟨he, ha⟩
      by_cases hs : standardMethods.contains s
      · rw [methodFromStr, if_neg he, if_pos hs]; rfl
      · rw [methodFromStr, if_neg he, if_neg hs, if_pos ha]; rfl
  · intro s
    by_cases he : s.data = []
    · right; rw [methodFromStr, if_pos he]
    · by_cases hs : standardMethods.contains s
      · left; rw [methodFromStr, if_neg he, if_pos hs]
      · by_cases ha : s.data.all isMethodTokenChar
        · left; rw [methodFromStr, if_neg he, if_neg hs, if_pos ha]
        · right; rw [methodFromStr, if_neg he, if_neg hs, if_neg ha]
  · intro c m p hpp hbad
    have hdich : methodFromStr p.method = .ok p.method ∨
        methodFromStr p.method = .error "invalid HTTP method" := by
      by_cases he : p.method.data = []
      · right; rw [methodFromStr, if_pos he]
      · by_cases hs : standardMethods.contains p.method
        · left; rw [methodFromStr, if_neg he, if_pos hs]
        · by_cases ha : p.method.data.all isMethodTokenChar
          · left; rw [methodFromStr, if_neg he, if_neg hs, if_pos ha]
          · right; rw [methodFromStr, if_neg he, if_neg hs, if_neg ha]
    have herr : methodFromStr p.method = .error "invalid HTTP method" := by
      rcases hdich with hh | hh
      · rw [hh] at hbad; simp [Except.isOk, Except.toBool] at hbad
      · exact hh
    simp [request, hpp, herr]

/-- Witness for C4 (amended) at a concrete input: a method string with a
space fails before any network call. -/
theorem method_token_spec_witness :
    request okClient [("method", Dyn.str "a b"), ("url", Dyn.str "u")] =
      (.error "invalid HTTP method", [], okClient) :=
  method_token_spec.2.2 okClient [("method", Dyn.str "a b"), ("url", Dyn.str "u")]
    ⟨"a b", "u", [], Dyn.unit, Output.Text⟩ rfl rfl

/-- Claim C9 (confirmed): a response received from the transport is decoded
and returned regardless of its HTTP status code: the result and the request
log are unchanged when only the status differs, and on a successful
pipeline the result is exactly the decoded body. -/
theorem status_agnostic :
    (∀ (p : List (String × Dyn)) (s s2 : Nat) (b : String),
        (request ⟨fun _ => .ok ⟨s, b⟩⟩ p).1 = (request ⟨fun _ => .ok ⟨s2, b⟩⟩ p).1 ∧
        (request ⟨fun _ => .ok ⟨s, b⟩⟩ p).2.1 = (request ⟨fun _ => .ok ⟨s2, b⟩⟩ p).2.1)
    ∧ (∀ (p : List (String × Dyn)) (prm : Parameters) (mth : String)
          (hs : List (String × String)) (s : Nat) (b : String),
        parseParameters p = .ok prm → methodFromStr prm.method = .ok mth →
        headersMapM prm.headers = .ok hs →
        (request ⟨fun _ => .ok ⟨s, b⟩⟩ p).1 = decodeBody prm.output b) := by
  constructor
  · intro p s s2 b
    rcases h1 : parseParameters p with e | prm
    · simp [request, h1]
    · rcases h2 : methodFromStr prm.method with e | mth
      · simp [request, h1, h2]
      · rcases h3 : headersMapM prm.headers with e | hs
        · simp [request, h1, h2, h3]
        · simp [request, h1, h2, h3]
  · intro p prm mth hs s b h1 h2 h3
    simp [request, h1, h2, h3]

/-- Witness for C9 at a concrete input: a 404 response still returns its
decoded body. -/
theorem status_agnostic_witness :
    (request ⟨fun _ => .ok ⟨404, "not found"⟩⟩
        [("method", Dyn.str "GET"), ("url", Dyn.str "u")]).1 =
      decodeBody Output.Text "not found" :=
  status_agnostic.2 [("method", Dyn.str "GET"), ("url", Dyn.str "u")]
    ⟨"GET", "u", [], Dyn.unit, Output.Text⟩ "GET" [] 404 "not found" rfl rfl rfl

/-- Claim C10 (confirmed): the client handle is returned unchanged by every
call to `request`, on success and on every error path. -/
theorem client_unchanged (c : Client) (p : List (String × Dyn)) :
    (request c p).2.2 = c := by
  rcases h1 : parseParameters p with e | prm
  · simp [request, h1]
  · rcases h2 : methodFromStr prm.method with e | mth
    · simp [request, h1, h2]
    · rcases h3 : headersMapM prm.headers with e | hs
      · simp [request, h1, h2, h3]
      · rcases h4 : c.send ⟨mth, prm.url, headerCollect hs [], dynToString prm.body⟩
            with e | resp
        · simp [request, h1, h2, h3, h4]
        · simp [request, h1, h2, h3, h4]

lemma parseValueCore_obj_head {fuel : Nat} {cs : List Char} {kvs : List (String × Json)}
    {r : List Char} (h : parseValueCore fuel cs = .ok (Json.obj kvs, r)) :
    ∃ t, skipWs cs = '\x7b' :: t := by
  cases fuel with
  | zero =>
    simp only [parseValueCore] at h
    exact Except.noConfusion h
  | succ f =>
    rcases hsk : skipWs cs with _ | ⟨c, rest⟩
    · simp only [parseValueCore, hsk] at h
      exact Except.noConfusion h
    · simp only [parseValueCore, hsk] at h
      by_cases hc : c = '\x7b'
      · exact ⟨rest, by rw [← hc]; try exact hsk⟩
      · rw [if_neg hc] at h
        repeat' split at h
        all_goals first
          | exact Except.noConfusion h
          | (injection h with h2; injection h2 with h3 h4; exact Json.noConfusion h3)

lemma parseValueCore_head_obj {fuel : Nat} {cs t : List Char} {j : Json} {r : List Char}
    (hsk : skipWs cs = '\x7b' :: t) (h : parseValueCore fuel cs = .ok (j, r)) :
    ∃ kvs, j = Json.obj kvs := by
  cases fuel with
  | zero =>
    simp only [parseValueCore] at h
    exact Except.noConfusion h
  | succ f =>
    simp only [parseValueCore, hsk, if_true] at h
    rcases hpo : parseObjEntries f t true with e2 | pr
    · simp only [hpo] at h
      exact Except.noConfusion h
    · obtain ⟨kvs, r2⟩ := pr
      simp only [hpo] at h
      injection h with h2
      injection h2 with h3 h4
      exact ⟨kvs, h3.symm⟩

